import Mathlib

/-!
Verification development for the `vuessr` template compiler
(bysir-zl/vue-ssr): a shallow embedding, in Lean 4, of the
template-to-code pipeline — the semantic lifter (`parseList`), the code
generator (`VueElement.GenCode`, `OptionsGen.ToGoCode`, `genVIf`,
`genVFor`, `genVSlot`, `injectVal`) and the HTML text normalizer — with
theorems about the resulting definitions.

Modelling conventions:
* Go `map[string]string` values are represented as association lists
  `List (String × String)`.  The list order models the iteration order
  that a particular run of the Go program observes; Go's `range` over a
  map yields entries in an unspecified order, so two lists that are
  permutations of one another denote the same Go map.
* Functions that mutate a Go map in place (`delete`) are modelled by
  returning the post-state of the map alongside their main result.
* A Go `panic` in the compiler is modelled with `Option`/`Except`.
-/

namespace Vuessr

/-- Go `strings.Trim s cutset`: removes all leading and trailing
characters of `s` that appear in `cutset`. -/
def goTrim (s : String) (cutset : List Char) : String :=
  String.mk ((((s.data.dropWhile (fun c => c ∈ cutset)).reverse).dropWhile
    (fun c => c ∈ cutset)).reverse)

/-- Go `strings.Trim s " "` as used throughout the lifter. -/
def goTrimSpace (s : String) : String := goTrim s [' ']

/-- Go `strings.HasPrefix`. -/
def goStartsWith (s pre : String) : Bool :=
  pre.data.isPrefixOf s.data

/-- Go `strings.Contains s (String.singleton c)`. -/
def goContains (s : String) (c : Char) : Bool :=
  s.data.contains c

/-- Worker of `goSplit`, with fuel (any fuel of at least the list
length computes the full split, since every step consumes at least one
character). -/
def goSplitList (sep : List Char) : Nat → List Char → List Char → List (List Char)
  | _, acc, [] => [acc.reverse]
  | 0, acc, l => [acc.reverse ++ l]
  | n + 1, acc, c :: rest =>
    if sep.isPrefixOf (c :: rest) then
      acc.reverse :: goSplitList sep n [] ((c :: rest).drop sep.length)
    else
      goSplitList sep n (c :: acc) rest

/-- Go `strings.Split s sep` for a non-empty separator: split on every
non-overlapping occurrence of `sep`, left to right. -/
def goSplit (s sep : String) : List String :=
  (goSplitList sep.data s.data.length [] s.data).map String.mk

/-- Character test used by the modelled `Js2Go`: a character allowed in a
plain identifier. -/
def isIdentChar (c : Char) : Bool :=
  c.isAlpha || c.isDigit || c = '_' || c = '$'

/-- A plain (non-empty) identifier: identifier characters only, not
starting with a digit. -/
def isIdent (s : String) : Bool :=
  match s.data with
  | [] => false
  | c :: cs => (c.isAlpha || c = '_' || c = '$') && cs.all isIdentChar

/-- The scope identifier constant `DataKey = "this"` from the source. -/
def DataKey : String := "this"

/-- Modelled from the spec: `ast_from_api.Js2Go` lives in a package that
is not under `src/`.  Section 4.3 of the spec fixes its contract; the
case the claims exercise is "a bare identifier `foo` becomes a lookup
`S[\"foo\"]`" (whitespace around the identifier is ignored by the
expression parser).  Other expression forms are not needed by any claim
and are mapped to a deterministic placeholder. -/
def js2Go (expr : String) (scopeId : String) : String :=
  let t := goTrimSpace expr
  if isIdent t then scopeId ++ "[\"" ++ t ++ "\"]"
  else "interface2Code(" ++ t ++ ")"

/-- Go `strings.Replace(text, "\n", "\\n", -1)` from the `__string`
branch of `GenCode`: every newline character becomes the two-character
escape sequence backslash-`n`. -/
def escapeNl (s : String) : String :=
  String.mk (s.data.foldr
    (fun c acc => if c = '\n' then '\\' :: 'n' :: acc else c :: acc) [])

/-- Scanner for the regex `\x7b\x7b.+?\x7d\x7d` of `injectVal` (RE2,
leftmost match, lazy quantifier, `.` not matching newline): starting
right after an opening `{{`, accumulate content characters until the
first `}}` that follows at least one content character; fail on end of
input or on a newline. -/
def scanContent : List Char → List Char → Option (List Char × List Char)
  | [], _ => none
  | ch :: rest, acc =>
    if ch = '}' ∧ rest.head? = some '}' ∧ acc ≠ [] then
      some (acc.reverse, rest.tail)
    else if ch = '\n' then none
    else scanContent rest (ch :: acc)

theorem scanContent_length {l acc content rest'} :
    scanContent l acc = some (content, rest') → rest'.length < l.length := by
  induction l generalizing acc with
  | nil => intro h; simp [scanContent] at h
  | cons ch rest ih =>
    intro h
    rw [scanContent] at h
    split at h
    · rename_i hc
      obtain ⟨h1, h2, h3⟩ := hc
      cases rest with
      | nil => simp at h2
      | cons r rs =>
        simp at h h2
        obtain ⟨-, h⟩ := h
        simp [← h]
        omega
    · split at h
      · exact absurd h (by simp)
      · have := ih h
        simp
        omega

/-- The body of `injectVal`: replace every `\x7b\x7b expr \x7d\x7d`
occurrence with `"+interfaceToStr(<Js2Go expr>)+"`, scanning left to
right exactly as Go's `regexp.ReplaceAllStringFunc` does with the
pattern `\x7b\x7b.+?\x7d\x7d`. -/
def injectValAux : Nat → List Char → List Char
  | 0, l => l
  | _ + 1, [] => []
  | n + 1, c1 :: rest1 =>
    if c1 = '{' ∧ rest1.head? = some '{' then
      match scanContent rest1.tail [] with
      | some (content, rest') =>
        ("\"+interfaceToStr(" ++ js2Go (String.mk content) DataKey ++ ")+\"").data
          ++ injectValAux n rest'
      | none => c1 :: injectValAux n rest1
    else c1 :: injectValAux n rest1

/-- The fuel argument of `injectValAux` only bounds the recursion depth:
every recursive call strictly shrinks the character list, so any fuel of
at least the list's length computes the (fuel-free) scan to
completion. -/
theorem injectValAux_fuel {n m : Nat} :
    ∀ {l : List Char}, l.length ≤ n → l.length ≤ m →
      injectValAux n l = injectValAux m l := by
  induction n generalizing m with
  | zero =>
    intro l hn _
    have : l = [] := List.length_eq_zero.mp (Nat.le_zero.mp hn)
    subst this
    cases m <;> simp [injectValAux]
  | succ n ih =>
    intro l hn hm
    cases m with
    | zero =>
      have : l = [] := List.length_eq_zero.mp (Nat.le_zero.mp hm)
      subst this
      simp [injectValAux]
    | succ m =>
      cases l with
      | nil => simp [injectValAux]
      | cons c1 rest1 =>
        simp only [injectValAux]
        split
        · cases hs : scanContent rest1.tail [] with
          | some p =>
            obtain ⟨content, rest'⟩ := p
            have h1 := scanContent_length hs
            have h2 : rest1.tail.length ≤ rest1.length := by
              cases rest1 <;> simp
            simp only [List.length_cons] at hn hm
            exact congrArg
              (fun t => ("\"+interfaceToStr(" ++ js2Go (String.mk content) DataKey ++ ")+\"").data ++ t)
              (@ih m rest' (by omega) (by omega))
          | none =>
            simp only [List.length_cons] at hn hm
            exact congrArg (fun t => c1 :: t) (@ih m rest1 (by omega) (by omega))
        · simp only [List.length_cons] at hn hm
          exact congrArg (fun t => c1 :: t) (@ih m rest1 (by omega) (by omega))

/-- `injectVal` from the source: interpolation injection on a text
node. -/
def injectVal (src : String) : String :=
  String.mk (injectValAux src.data.length src.data)

/-- Association-list model of a Go `map[string]string`.  The list order
models the (unspecified) iteration order observed by one run. -/
abbrev StrMap := List (String × String)

/-- Go map lookup `m[k]` (first entry wins; the lists produced by the
embedding never carry a key twice). -/
def assocGet : StrMap → String → Option String
  | [], _ => none
  | kv :: rest, k => match k == kv.1 with
    | true => some kv.2
    | false => assocGet rest k

/-- Go map assignment `m[k] = v`: overwrite the entry if the key is
present, otherwise add it. -/
def assocSet (m : StrMap) (k v : String) : StrMap :=
  match m.any (fun kv => kv.1 == k) with
  | true => m.map (fun kv => match kv.1 == k with
    | true => (k, v)
    | false => kv)
  | false => m ++ [(k, v)]

/-- Go `delete(m, k)`. -/
def assocDelete (m : StrMap) (k : String) : StrMap :=
  m.filter (fun kv => kv.1 ≠ k)

/-- Right-biased merge `for k, v := range b \x7b a[k] = v \x7d`, the way
`GenCode` merges named-slot maps (later entries overwrite earlier). -/
def mergeAssoc (a b : StrMap) : StrMap :=
  b.foldl (fun acc kv => assocSet acc kv.1 kv.2) a

/-- `Directive` record from the source (`Name`, `Value`, `Arg`). -/
structure Directive where
  Name : String
  Value : String
  Arg : String
deriving DecidableEq, Repr

/-- `VFor` record from the source. -/
structure VForD where
  ArrayKey : String
  ItemKey : String
  IndexKey : String
deriving DecidableEq, Repr

/-- `VSlot` record from the source. -/
structure VSlotD where
  SlotName : String
  PropsKey : String
deriving DecidableEq, Repr

/-- `OptionsGen` from the source: the data needed to emit one options
literal.  The unused `Slot` field of the Go struct (never assigned a
non-nil value) is omitted. -/
structure OptionsGen where
  Props : StrMap
  Attrs : StrMap
  Class : List String
  Style : StrMap
  StyleKeys : List String
  DefaultSlotCode : String
  NamedSlotCode : StrMap
  Directives : List Directive
deriving DecidableEq, Repr

/-- `mapStringToGoCode` from the source: emit a `map[string]string`
literal, iterating the entries in the order given by the list. -/
def mapStringToGoCode (m : StrMap) : String :=
  if m.length = 0 then "nil"
  else
    "map[string]string" ++ "\x7b" ++
      m.foldl (fun c kv => c ++ "\"" ++ kv.1 ++ "\": \"" ++ kv.2 ++ "\",") "" ++
      "\x7d"

/-- `mapGoCodeToCode` from the source: emit a `map[string]<valueType>`
literal whose values are already Go code. -/
def mapGoCodeToCode (m : StrMap) (valueType : String) : String :=
  "map[string]" ++ valueType ++ "\x7b" ++
    m.foldl (fun c kv => c ++ "\"" ++ kv.1 ++ "\": " ++ kv.2 ++ ",") "" ++
    "\x7d"

/-- `sliceToGoCode` from the source. -/
def sliceToGoCode (m : List String) : String :=
  "[]string" ++ "\x7b" ++
    m.foldl (fun c v => c ++ "\"" ++ v ++ "\", ") "" ++
    "\x7d"

/-- `mapJsCodeToCode` from the source: emit a
`map[string]interface\x7b\x7d` literal, transpiling each value with
`Js2Go`. -/
def mapJsCodeToCode (m : StrMap) : String :=
  if m.length = 0 then "nil"
  else
    "map[string]interface\x7b\x7d" ++ "\x7b" ++
      m.foldl (fun c kv => c ++ "\"" ++ kv.1 ++ "\": " ++ js2Go kv.2 DataKey ++ ",") "" ++
      "\x7d"

/-- Modelled from the spec: `getPropsClass` is not under `src/`.
Section 4.4.2: if `props["class"]` exists its value is transpiled and
placed under `PropsClass`; the caller in `ToGoCode` compares the result
against "nil" to detect absence. -/
def getPropsClass (props : StrMap) : String :=
  match assocGet props "class" with
  | some v => js2Go v DataKey
  | none => "nil"

/-- Modelled from the spec: `getPropsStyle` is not under `src/`; same
shape as `getPropsClass` for the `style` key (spec §4.4.2). -/
def getPropsStyle (props : StrMap) : String :=
  match assocGet props "style" with
  | some v => js2Go v DataKey
  | none => "nil"

/-- The `slot` map built inside `OptionsGen.ToGoCode`: a `"default"`
closure over `DefaultSlotCode` (the empty default becomes the literal
`""`), then the entries of `NamedSlotCode` written over it. -/
def slotAssemble (o : OptionsGen) : StrMap :=
  let children := if o.DefaultSlotCode = "" then "\"\"" else o.DefaultSlotCode
  mergeAssoc
    [("default",
      "func (props map[string]interface\x7b\x7d)string\x7breturn " ++ children ++ "\x7d")]
    o.NamedSlotCode

/-- The `Props`-related section of `ToGoCode`, returning the emitted
code fragment together with the post-state of the props map: the source
calls `delete(o.Props, "class")` / `delete(o.Props, "style")` directly
on the map it was handed. -/
def propsSection (o : OptionsGen) : String × StrMap :=
  if o.Props.length ≠ 0 then
    let cCode := getPropsClass o.Props
    let (c1, props1) :=
      if cCode ≠ "nil" then
        ("PropsClass: " ++ cCode ++ ", \n", assocDelete o.Props "class")
      else ("", o.Props)
    let cStyle := getPropsStyle props1
    let (c2, props2) :=
      if cStyle ≠ "nil" then
        (c1 ++ "PropsStyle: " ++ cStyle ++ ", \n", assocDelete props1 "style")
      else (c1, props1)
    let c3 :=
      if props2.length ≠ 0 then c2 ++ "Props: " ++ mapJsCodeToCode props2 ++ ", \n"
      else c2
    (c3, props2)
  else ("", o.Props)

/-- The `Directives` array literal emitted by `ToGoCode`. -/
def directivesCode (ds : List Directive) : String :=
  "[]directive\x7b\n" ++
    ds.foldl (fun c v =>
      c ++ "\x7bName: \"" ++ v.Name ++ "\", Value: " ++
        (if v.Value = "" then "nil" else js2Go v.Value DataKey) ++ "\x7d,\n") "" ++
    "\x7d"

/-- Everything `ToGoCode` appends before the `Slot` field. -/
def optHeadCode (o : OptionsGen) : String :=
  "&Options\x7b" ++ (propsSection o).1 ++
    (if o.Attrs.length ≠ 0 then "Attrs: " ++ mapStringToGoCode o.Attrs ++ ",\n" else "") ++
    (if o.Class.length ≠ 0 then "Class: " ++ sliceToGoCode o.Class ++ ",\n" else "") ++
    (if o.Style.length ≠ 0 then "Style: " ++ mapStringToGoCode o.Style ++ ",\n" else "") ++
    (if o.StyleKeys.length ≠ 0 then "StyleKeys: " ++ sliceToGoCode o.StyleKeys ++ ",\n" else "")

/-- Everything `ToGoCode` appends after the `Slot` field. -/
def optTailCode (o : OptionsGen) : String :=
  "P: options,\n" ++
    (if o.Directives.length ≠ 0 then "Directives: " ++ directivesCode o.Directives ++ ",\n" else "") ++
    "\x7d"

/-- `OptionsGen.ToGoCode` from the source, with the post-state of the
props map made explicit (Go maps are reference values, so the two
`delete` calls inside `ToGoCode` act on the very map stored in the Vue
tree node that supplied `o.Props`). -/
def toGoCodeSt (o : OptionsGen) : String × StrMap :=
  (optHeadCode o ++
     "Slot: " ++ mapGoCodeToCode (slotAssemble o) "namedSlotFunc" ++ ",\n" ++
     optTailCode o,
   (propsSection o).2)

/-- The code component of `OptionsGen.ToGoCode`. -/
def toGoCode (o : OptionsGen) : String := (toGoCodeSt o).1

/-- `VueElement` from the source.  The `VIf` field packs the Go
`*VIf` struct as `Option (condition × chain)` where each chain entry is
an `ElseIf` triple `(Types, Condition, element)`; the Go struct stores a
pointer to the chained element, modelled here by the element value.
The `ElseIfConditions` field (always `[]` in the source) is omitted. -/
inductive VueElement : Type where
  | mk
    (IsRoot : Bool) (TagName : String) (Text : String)
    (Attrs : StrMap) (AttrsKeys : List String)
    (Directives : List Directive)
    (Class : List String)
    (Style : StrMap) (StyleKeys : List String)
    (Props : StrMap)
    (Children : List VueElement)
    (VIf : Option (String × List (String × String × VueElement)))
    (VFor : Option VForD) (VSlot : Option VSlotD)
    (VElse : Bool) (VElseIf : Bool)
    (VHtml : String) (VText : String) : VueElement

@[simp] def VueElement.IsRoot : VueElement → Bool
  | .mk a _ _ _ _ _ _ _ _ _ _ _ _ _ _ _ _ _ => a

@[simp] def VueElement.TagName : VueElement → String
  | .mk _ a _ _ _ _ _ _ _ _ _ _ _ _ _ _ _ _ => a

@[simp] def VueElement.Text : VueElement → String
  | .mk _ _ a _ _ _ _ _ _ _ _ _ _ _ _ _ _ _ => a

@[simp] def VueElement.Attrs : VueElement → StrMap
  | .mk _ _ _ a _ _ _ _ _ _ _ _ _ _ _ _ _ _ => a

@[simp] def VueElement.AttrsKeys : VueElement → List String
  | .mk _ _ _ _ a _ _ _ _ _ _ _ _ _ _ _ _ _ => a

@[simp] def VueElement.Directives : VueElement → List Directive
  | .mk _ _ _ _ _ a _ _ _ _ _ _ _ _ _ _ _ _ => a

@[simp] def VueElement.Class : VueElement → List String
  | .mk _ _ _ _ _ _ a _ _ _ _ _ _ _ _ _ _ _ => a

@[simp] def VueElement.Style : VueElement → StrMap
  | .mk _ _ _ _ _ _ _ a _ _ _ _ _ _ _ _ _ _ => a

@[simp] def VueElement.StyleKeys : VueElement → List String
  | .mk _ _ _ _ _ _ _ _ a _ _ _ _ _ _ _ _ _ => a

@[simp] def VueElement.Props : VueElement → StrMap
  | .mk _ _ _ _ _ _ _ _ _ a _ _ _ _ _ _ _ _ => a

@[simp] def VueElement.Children : VueElement → List VueElement
  | .mk _ _ _ _ _ _ _ _ _ _ a _ _ _ _ _ _ _ => a

@[simp] def VueElement.VIf :
    VueElement → Option (String × List (String × String × VueElement))
  | .mk _ _ _ _ _ _ _ _ _ _ _ a _ _ _ _ _ _ => a

@[simp] def VueElement.VFor : VueElement → Option VForD
  | .mk _ _ _ _ _ _ _ _ _ _ _ _ a _ _ _ _ _ => a

@[simp] def VueElement.VSlot : VueElement → Option VSlotD
  | .mk _ _ _ _ _ _ _ _ _ _ _ _ _ a _ _ _ _ => a

@[simp] def VueElement.VElse : VueElement → Bool
  | .mk _ _ _ _ _ _ _ _ _ _ _ _ _ _ a _ _ _ => a

@[simp] def VueElement.VElseIf : VueElement → Bool
  | .mk _ _ _ _ _ _ _ _ _ _ _ _ _ _ _ a _ _ => a

@[simp] def VueElement.VHtml : VueElement → String
  | .mk _ _ _ _ _ _ _ _ _ _ _ _ _ _ _ _ a _ => a

@[simp] def VueElement.VText : VueElement → String
  | .mk _ _ _ _ _ _ _ _ _ _ _ _ _ _ _ _ _ a => a

/-- The `App` registry: the set of registered component names, modelled
as the list of keys of the Go `Components` map. -/
abbrev App := List String

/-- `NewApp` from the source: `component` and `slot` are
pre-registered. -/
def NewApp : App := ["component", "slot"]

/-- `genVFor` from the source: wrap a body expression in the v-for
iteration closure. -/
def genVFor (e : VForD) (srcCode : String) : String :=
  "func ()string\x7b\n  var c = \"\"\n\n  for index, item := range lookInterfaceToSlice(" ++
    DataKey ++ ", \"" ++ e.ArrayKey ++ "\") \x7b\n    c += func(xdata map[string]interface\x7b\x7d) string\x7b\n        " ++
    DataKey ++ " := extendMap(map[string]interface\x7b\x7d\x7b\n          \"" ++
    e.IndexKey ++ "\": index,\n          \"" ++ e.ItemKey ++
    "\": item,\n        \x7d, xdata)\n\n        return " ++ srcCode ++
    "\n    \x7d(" ++ DataKey ++ ")\n  \x7d\nreturn c\n\x7d()"

/-- `genVSlot` from the source: the node's own expression becomes the
literal `""` and the wrapped body moves into a single named-slot
closure. -/
def genVSlot (e : VSlotD) (srcCode : String) : String × StrMap :=
  ("\"\"",
   [(e.SlotName,
     "func(props map[string]interface\x7b\x7d) string\x7b\n\t" ++ DataKey ++
       " := extendMap(map[string]interface\x7b\x7d\x7b\"" ++ e.PropsKey ++
       "\": props\x7d, " ++ DataKey ++ ")\n_ = " ++ DataKey ++
       "\nreturn " ++ srcCode ++ "\n\x7d")])

/-- One `else` / `elseif` chain entry of the conditional ladder emitted
by `genVIf`; the entry carries `(Types, Condition, generated element
code)`. -/
def elseEntryCode (x : String × String × String) : String :=
  match x.1 with
  | "else" => "\x7d else \x7b return " ++ x.2.2
  | "elseif" =>
    "\x7d else if interfaceToBool(" ++ js2Go x.2.1 DataKey ++ ") \x7b return " ++ x.2.2
  | _ => ""

/-- The string assembly done by `genVIf` from the source: an
immediately-invoked closure holding the conditional ladder.  The chain
entries carry the code already generated for the chained elements
(`genVIf` obtains it by recursing with `GenCode`; the recursion lives in
`genCode` below). -/
def genVIfAssemble (condGo : String) (chain : List (String × String × String))
    (srcCode : String) : String :=
  "func ()string\x7b\nif interfaceToBool(" ++ condGo ++ ") \x7breturn " ++ srcCode ++
    (chain.map elseEntryCode).foldl (fun a b => a ++ b) "" ++
    "\n\x7d\nreturn \"\"\n\x7d()"

/-- Modelled from the spec: `genAttrCode` is called by `GenCode` for
static elements but is not under `src/`.  Spec §4.4 step 2: a quoted Go
string literal concatenating the space-prefixed `key="value"` pieces in
original attribute order, with static class and style serialized into
`class` / `style` attributes. -/
def genAttrCode (e : VueElement) : String :=
  let attrPieces := (e.AttrsKeys.map (fun k =>
    " " ++ k ++ "=\\\"" ++ ((assocGet e.Attrs k).getD "") ++ "\\\"")).foldl
      (fun a b => a ++ b) ""
  let classPiece :=
    if e.Class.length ≠ 0 then
      " class=\\\"" ++ String.intercalate " " e.Class ++ "\\\""
    else ""
  let stylePiece :=
    if e.StyleKeys.length ≠ 0 then
      " style=\\\"" ++
        String.intercalate ";" (e.StyleKeys.map (fun k =>
          k ++ ":" ++ ((assocGet e.Style k).getD ""))) ++ "\\\""
    else ""
  "\"" ++ attrPieces ++ classPiece ++ stylePiece ++ "\""

/-- The `OptionsGen` value built by `GenCode` for the
registered-component and the dynamic-tag branches (both pass the same
fields of the element, its accumulated default-slot code and its merged
named-slot map). -/
def optionsOf (e : VueElement) (defaultSlot : String) (named : StrMap) : OptionsGen :=
  OptionsGen.mk e.Props e.Attrs e.Class e.Style e.StyleKeys defaultSlot named e.Directives

/-- The tag-dispatch step of `GenCode` (before directive wrapping):
registered component call, `template` passthrough, `__string` text,
dynamic `r.Tag` call, or static string concatenation. -/
def genBase (app : App) (e : VueElement) (defaultSlot : String) (named : StrMap) : String :=
  if app.contains e.TagName then
    "r.Component_" ++ e.TagName ++ "(" ++ toGoCode (optionsOf e defaultSlot named) ++ ")"
  else if e.TagName = "template" then
    defaultSlot
  else if e.TagName = "__string" then
    "\"" ++ injectVal (escapeNl e.Text) ++ "\""
  else if e.IsRoot || e.Directives.length ≠ 0 then
    "r.Tag(\"" ++ e.TagName ++ "\", " ++ (if e.IsRoot then "true" else "false") ++
      ", " ++ toGoCode (optionsOf e defaultSlot named) ++ ")"
  else
    "\"<" ++ e.TagName ++ "\"+" ++ genAttrCode e ++ "+\">\"+" ++ defaultSlot ++
      "+\"</" ++ e.TagName ++ ">\""

mutual

/-- `VueElement.GenCode` from the source: returns the element's
expression code together with its named-slot map.  Children marked
`VElse` / `VElseIf` are skipped (their code is emitted inside the
preceding `v-if` chain); directive decorators are applied in the order
`v-for`, then `v-slot`, then `v-if`. -/
def genCode (app : App) : VueElement → String × StrMap
  | e@(.mk _ _ _ _ _ _ _ _ _ _ children vIf vFor vSlot _ _ _ _) =>
    let childRes := genList app children
    let defaultSlot0 :=
      childRes.foldl (fun acc p => (if acc ≠ "" then acc ++ "+" else acc) ++ p.1) ""
    let named0 := childRes.foldl (fun acc p => mergeAssoc acc p.2) []
    let defaultSlot := if defaultSlot0 = "" then "\"\"" else defaultSlot0
    let eleCode0 := genBase app e defaultSlot named0
    let eleCode1 :=
      match vFor with
      | some f => genVFor f eleCode0
      | none => eleCode0
    let (eleCode2, named1) :=
      match vSlot with
      | some s =>
        let r := genVSlot s eleCode1
        (r.1, mergeAssoc named0 r.2)
      | none => (eleCode1, named0)
    match vIf with
    | some ci =>
      let chainRes := genChain app ci.2
      let chainNamed := chainRes.foldl (fun acc x => mergeAssoc acc x.2.2.2) []
      (genVIfAssemble (js2Go ci.1 DataKey)
         (chainRes.map (fun x => (x.1, x.2.1, x.2.2.1))) eleCode2,
       mergeAssoc named1 chainNamed)
    | none => (eleCode2, named1)

/-- The child loop of `GenCode`: generate code for each child that is
not an `else` / `else-if` node, in order. -/
def genList (app : App) : List VueElement → List (String × StrMap)
  | [] => []
  | c :: rest =>
    if c.VElse || c.VElseIf then genList app rest
    else genCode app c :: genList app rest

/-- The chain loop of `genVIf`: generate code for each chained element,
keeping its `Types` and `Condition`. -/
def genChain (app : App) :
    List (String × String × VueElement) → List (String × String × (String × StrMap))
  | [] => []
  | x :: rest => (x.1, x.2.1, genCode app x.2.2) :: genChain app rest

end

/-- `Props.CanBeAttr` from the source: keep only the entries whose key
is in the HTML allowlist (`id`, `src`) and, additionally, has the
`data-` prefix.  (The source builds the result by iterating the Go map;
an order-preserving filter over the association list realizes the same
map.) -/
def canBeAttr (p : StrMap) : StrMap :=
  p.filter (fun kv =>
    (kv.1 == "id" || kv.1 == "src") && goStartsWith kv.1 "data-")

/-- One raw HTML attribute as delivered by `golang.org/x/net/html`:
namespace, key, value. -/
structure Attr where
  Ns : String
  Key : String
  Val : String
deriving DecidableEq, Repr

/-- `Element` from the source: a raw HTML tree node. -/
inductive Element : Type where
  | mk (Text : String) (TagName : String) (Attrs : List Attr)
       (Children : List Element) (Root : Bool) : Element

@[simp] def Element.Text : Element → String
  | .mk a _ _ _ _ => a

@[simp] def Element.TagName : Element → String
  | .mk _ a _ _ _ => a

@[simp] def Element.Attrs : Element → List Attr
  | .mk _ _ a _ _ => a

@[simp] def Element.Children : Element → List Element
  | .mk _ _ _ a _ => a

@[simp] def Element.Root : Element → Bool
  | .mk _ _ _ _ a => a

/-- The `v-for` attribute parse from `parseList`: split the value on
`" in "` (the right side, element 1 of Go's `strings.Split`, is the
trimmed `ArrayKey`); if the trimmed left side contains a comma, trim
outer parentheses and split it on `","` into `ItemKey` and `IndexKey`,
otherwise the left side is `ItemKey` and `IndexKey` is `"$index"`.
Returns `none` where the Go code panics with an index-out-of-range
(no `" in "` in the value). -/
def parseVFor (val : String) : Option VForD :=
  let ss := goSplit val " in "
  match ss.get? 1 with
  | none => none
  | some s1 =>
    let arrayKey := goTrimSpace s1
    let left := goTrimSpace (ss.headD "")
    if goContains left ',' then
      let left2 := goTrim left ['(', ')']
      let ss2 := goSplit left2 ","
      some (VForD.mk arrayKey (goTrimSpace (ss2.headD ""))
        (goTrimSpace ((ss2.get? 1).getD "")))
    else
      some (VForD.mk arrayKey left "$index")

/-- The per-element result of the attribute-classification loop of
`parseList`. -/
structure ClsRes where
  props : StrMap
  ds : List Directive
  classL : List String
  style : StrMap
  styleKeys : List String
  attrs : StrMap
  attrsKeys : List String
  vIfCond : Option String
  vFor : Option VForD
  vSlot : Option VSlotD
  vElseIf : Option String
  vElse : Option String
  vHtml : String
  vText : String
deriving DecidableEq, Repr

/-- The empty classification state. -/
def ClsRes.init : ClsRes :=
  ClsRes.mk [] [] [] [] [] [] [] none none none none none "" ""

/-- One step of the attribute loop of `parseList`: classify a single
attribute into its bucket, in the order the Go code tests the cases. -/
def classifyAttr (r : ClsRes) (a : Attr) : Except String ClsRes :=
  let oriKey := a.Key
  let ss := goSplit oriKey ":"
  let nameSpace := if ss.length = 2 then ss.headD "" else "-"
  let key := if ss.length = 2 then (ss.get? 1).getD "" else oriKey
  if nameSpace = "v-bind" ∨ nameSpace = "" then
    .ok (ClsRes.mk (assocSet r.props key a.Val) r.ds r.classL r.style r.styleKeys r.attrs r.attrsKeys r.vIfCond r.vFor r.vSlot r.vElseIf r.vElse r.vHtml r.vText)
  else if goStartsWith oriKey "v-" then
    if key = "v-for" then
      match parseVFor a.Val with
      | none => .error "index out of range"
      | some f => .ok (ClsRes.mk r.props r.ds r.classL r.style r.styleKeys r.attrs r.attrsKeys r.vIfCond (some f) r.vSlot r.vElseIf r.vElse r.vHtml r.vText)
    else if key = "v-if" then
      .ok (ClsRes.mk r.props r.ds r.classL r.style r.styleKeys r.attrs r.attrsKeys (some (goTrimSpace a.Val)) r.vFor r.vSlot r.vElseIf r.vElse r.vHtml r.vText)
    else if nameSpace = "v-slot" then
      .ok (ClsRes.mk r.props r.ds r.classL r.style r.styleKeys r.attrs r.attrsKeys r.vIfCond r.vFor (some (VSlotD.mk key (if a.Val = "" then "slotProps" else a.Val))) r.vElseIf r.vElse r.vHtml r.vText)
    else if key = "v-else-if" then
      .ok (ClsRes.mk r.props r.ds r.classL r.style r.styleKeys r.attrs r.attrsKeys r.vIfCond r.vFor r.vSlot (some (goTrimSpace a.Val)) r.vElse r.vHtml r.vText)
    else if key = "v-else" then
      .ok (ClsRes.mk r.props r.ds r.classL r.style r.styleKeys r.attrs r.attrsKeys r.vIfCond r.vFor r.vSlot r.vElseIf (some (goTrimSpace a.Val)) r.vHtml r.vText)
    else if key = "v-html" then
      .ok (ClsRes.mk r.props r.ds r.classL r.style r.styleKeys r.attrs r.attrsKeys r.vIfCond r.vFor r.vSlot r.vElseIf r.vElse (goTrimSpace a.Val) r.vText)
    else if key = "v-text" then
      .ok (ClsRes.mk r.props r.ds r.classL r.style r.styleKeys r.attrs r.attrsKeys r.vIfCond r.vFor r.vSlot r.vElseIf r.vElse r.vHtml (goTrimSpace a.Val))
    else
      let name := if nameSpace ≠ "-" then nameSpace else key
      let arg := if nameSpace ≠ "-" then key else ""
      .ok (ClsRes.mk r.props (r.ds ++ [Directive.mk name (goTrimSpace a.Val) arg]) r.classL r.style r.styleKeys r.attrs r.attrsKeys r.vIfCond r.vFor r.vSlot r.vElseIf r.vElse r.vHtml r.vText)
  else if a.Key = "class" then
    .ok (ClsRes.mk r.props r.ds (r.classL ++ (goSplit a.Val " ").filter (fun v => v ≠ "")) r.style r.styleKeys r.attrs r.attrsKeys r.vIfCond r.vFor r.vSlot r.vElseIf r.vElse r.vHtml r.vText)
  else if a.Key = "style" then
    let pieces := (goSplit a.Val ";").map goTrimSpace
    .ok (pieces.foldl (fun r v =>
      let ss := goSplit v ":"
      if ss.length ≠ 2 then r
      else
        let key := goTrimSpace (ss.headD "")
        let val := goTrimSpace ((ss.get? 1).getD "")
        ClsRes.mk r.props r.ds r.classL (assocSet r.style key val) (r.styleKeys ++ [key]) r.attrs r.attrsKeys r.vIfCond r.vFor r.vSlot r.vElseIf r.vElse r.vHtml r.vText) r)
  else
    let key := if a.Ns ≠ "" then a.Ns ++ ":" ++ a.Key else a.Key
    .ok (ClsRes.mk r.props r.ds r.classL r.style r.styleKeys (assocSet r.attrs key a.Val) (r.attrsKeys ++ [key]) r.vIfCond r.vFor r.vSlot r.vElseIf r.vElse r.vHtml r.vText)

/-- The whole attribute loop of `parseList` over one element. -/
def classifyAttrs (attrs : List Attr) : Except String ClsRes :=
  attrs.foldlM classifyAttr ClsRes.init

/-- Assembly of the `VueElement` literal built at the end of each
`parseList` iteration (before else-chain bookkeeping). -/
def buildVue (e : Element) (ch : List VueElement) (r : ClsRes) : VueElement :=
  VueElement.mk e.Root e.TagName e.Text r.attrs r.attrsKeys r.ds r.classL
    r.style r.styleKeys r.props ch
    (r.vIfCond.map (fun c => (c, [])))
    r.vFor r.vSlot r.vElse.isSome r.vElseIf.isSome r.vHtml r.vText

/-- `VIf.AddElseIf` applied through the cursor: append one chain entry
to the element's `v-if` chain.  (In Go the cursor is a pointer into the
result slice; the cursor invariantly points at an element whose `VIf` is
non-nil.) -/
def addElseIf (v : VueElement) (entry : String × String × VueElement) : VueElement :=
  match v with
  | .mk a b c d e f g h i j k vIf m n o p q s =>
    .mk a b c d e f g h i j k (vIf.map (fun ci => (ci.1, ci.2 ++ [entry]))) m n o p q s

/-- `List.modify`-style helper: apply `f` at index `i`. -/
def listModify {α : Type} : List α → Nat → (α → α) → List α
  | [], _, _ => []
  | a :: l, 0, f => f a :: l
  | a :: l, n + 1, f => a :: listModify l n f

/-- Else-chain bookkeeping of `parseList`, one sibling at a time.  State:
the elements produced so far plus the cursor (`ifVueEle` in the source)
as an index into that list.  In source order: a node with `v-if` becomes
the cursor; a node with none of `v-if`/`v-else-if`/`v-else` clears the
cursor; then a pending `v-else-if`/`v-else` is appended to the cursor's
chain (a missing cursor is the fatal `panic`), and `v-else` closes the
chain. -/
def parseStep (st : List VueElement × Option Nat) (v : VueElement)
    (vElseIf vElse : Option String) :
    Except String (List VueElement × Option Nat) :=
  let acc0 := st.1
  let idx := acc0.length
  let acc := acc0 ++ [v]
  let cur :=
    if v.VIf.isSome then some idx
    else if vElse.isNone ∧ vElseIf.isNone then none
    else st.2
  match vElseIf with
  | some cond =>
    match cur with
    | none => .error "v-else-if must below v-if"
    | some j =>
      let acc := listModify acc j (fun w => addElseIf w ("elseif", cond, v))
      match vElse with
      | some cond2 =>
        match cur with
        | none => .error "v-else must below v-if"
        | some j2 =>
          .ok (listModify acc j2 (fun w => addElseIf w ("else", cond2, v)), none)
      | none => .ok (acc, cur)
  | none =>
    match vElse with
    | some cond2 =>
      match cur with
      | none => .error "v-else must below v-if"
      | some j2 =>
        .ok (listModify acc j2 (fun w => addElseIf w ("else", cond2, v)), none)
    | none => .ok (acc, cur)

/-- `parseList` from the source: recursively lift a sibling list of raw
elements, threading the else-chain cursor. -/
def parseListGo : List Element → (List VueElement × Option Nat) →
    Except String (List VueElement)
  | [], st => .ok st.1
  | .mk tx tn ats ch rt :: rest, st => do
    let r ← classifyAttrs ats
    let chv ← parseListGo ch ([], none)
    let v := buildVue (.mk tx tn ats ch rt) chv r
    let st' ← parseStep st v r.vElseIf r.vElse
    parseListGo rest st'

/-- `VueElementParser.Parse` for a single root element. -/
def parseVue (e : Element) : Except String (List VueElement) :=
  parseListGo [e] ([], none)

/-- Whitespace class of Go's RE2 `\s`: space, tab, newline, form feed,
carriage return. -/
def isGoSpace (c : Char) : Bool :=
  c = ' ' || c = '\t' || c = '\n' || c = '\x0c' || c = '\r'

theorem length_dropWhile_le' {α : Type} (p : α → Bool) :
    ∀ l : List α, (l.dropWhile p).length ≤ l.length := by
  intro l
  induction l with
  | nil => simp
  | cons a l ih =>
    by_cases h : p a
    · simp [List.dropWhile, h]; omega
    · simp [List.dropWhile, h]

/-- Collapse every maximal run of whitespace to a single space — the
effect of `regexp.MustCompile("\\s+").ReplaceAllString(text, " ")` in
`hNodeToElement`. -/
def collapseWs : List Char → List Char
  | [] => []
  | c :: l =>
    if isGoSpace c then ' ' :: collapseWs (l.dropWhile isGoSpace)
    else c :: collapseWs l
termination_by l => l.length
decreasing_by
  all_goals simp_wf
  all_goals (have hd := length_dropWhile_le' isGoSpace cs; omega)

/-- The text-node normalizer of `hNodeToElement`: replace `\n` with a
space, then collapse whitespace runs. -/
def normalizeText (s : String) : String :=
  String.mk (collapseWs (s.data.map (fun c => if c = '\n' then ' ' else c)))

/-- The drop decision of `hNodeToElement`: a text node is omitted iff
the normalized text is empty or a single space. -/
def omitText (t : String) : Bool :=
  t = " " || t = ""

/-- Checker for normalized text: every whitespace character is a plain
space and no two adjacent characters are both whitespace. -/
def wsNormed : List Char → Bool
  | [] => true
  | [c] => !isGoSpace c || (c == ' ')
  | c1 :: c2 :: l =>
    ((!isGoSpace c1) || ((c1 == ' ') && !isGoSpace c2)) && wsNormed (c2 :: l)

/-- The child-accumulation of `GenCode` in isolation: the default-slot
code an element gathers from its children. -/
def childSlotOf (app : App) (e : VueElement) : String :=
  let d := (genList app e.Children).foldl
    (fun acc p => (if acc ≠ "" then acc ++ "+" else acc) ++ p.1) ""
  if d = "" then "\"\"" else d

/-- The named-slot map an element gathers from its children. -/
def childNamedOf (app : App) (e : VueElement) : StrMap :=
  (genList app e.Children).foldl (fun acc p => mergeAssoc acc p.2) []

/-- The dispatch code of `GenCode` for an element, before directive
wrapping. -/
def genBaseOf (app : App) (e : VueElement) : String :=
  genBase app e (childSlotOf app e) (childNamedOf app e)

/-- The `v-for` wrapping step of `GenCode`. -/
def vForApply (vf : Option VForD) (c : String) : String :=
  match vf with
  | some f => genVFor f c
  | none => c

/-- The `v-slot` wrapping step of `GenCode` (code component). -/
def vSlotApply (vs : Option VSlotD) (c : String) : String :=
  match vs with
  | some s => (genVSlot s c).1
  | none => c

/-- Concrete text node `Hello \x7b\x7b name \x7d\x7d` used by the
interpolation scenario of the spec. -/
def textNode : VueElement :=
  .mk false "__string" "Hello {{ name }}" [] [] [] [] [] [] [] []
    none none none false false "" ""

/-- Concrete `<span>Hello \x7b\x7b name \x7d\x7d</span>` element. -/
def spanNode : VueElement :=
  .mk false "span" "" [] [] [] [] [] [] [] [textNode]
    none none none false false "" ""

/-- Concrete element carrying both a `v-slot` and a `v-if`
descriptor. -/
def slotIfNode : VueElement :=
  .mk false "template" "" [] [] [] [] [] [] [] []
    (some ("c", [])) none (some (VSlotD.mk "s" "p")) false false "" ""

/-- Concrete element carrying a `v-slot` descriptor only. -/
def slotOnlyNode : VueElement :=
  .mk false "template" "" [] [] [] [] [] [] [] []
    none none (some (VSlotD.mk "header" "sp")) false false "" ""

/-- Concrete element for the else-chain witness. -/
def plainPNode : VueElement :=
  .mk false "p" "" [] [] [] [] [] [] [] [] none none none false true "" ""

/-- Concrete element carrying both a `v-if` and a `v-for` descriptor. -/
def forIfNode : VueElement :=
  .mk false "p" "" [] [] [] [] [] [] [] []
    (some ("a", [])) (some (VForD.mk "xs" "item" "$index")) none false false "" ""

/-!  Theorems. -/

theorem assocGet_map_overwrite_self (k v : String) :
    ∀ m : StrMap, m.any (fun kv => kv.1 == k) = true →
      assocGet (m.map (fun kv => match kv.1 == k with
        | true => (k, v)
        | false => kv)) k = some v := by
  intro m
  induction m with
  | nil => simp
  | cons kv rest ih =>
    intro hany
    by_cases h : kv.1 = k
    · have hb : (kv.1 == k) = true := by simp [h]
      simp only [List.map_cons, hb, assocGet, beq_self_eq_true]
    · have hb : (kv.1 == k) = false := by simp [h]
      have hb2 : (k == kv.1) = false := by
        simp only [beq_eq_false_iff_ne, ne_eq]
        intro hh
        exact h hh.symm
      simp only [List.map_cons, hb, assocGet, hb2]
      exact ih (by simpa [hb] using hany)

theorem assocGet_map_overwrite_ne (k v k' : String) (hne : k' ≠ k) :
    ∀ m : StrMap,
      assocGet (m.map (fun kv => match kv.1 == k with
        | true => (k, v)
        | false => kv)) k' = assocGet m k' := by
  intro m
  induction m with
  | nil => simp
  | cons kv rest ih =>
    by_cases h : kv.1 = k
    · have hb : (kv.1 == k) = true := by simp [h]
      have hb2 : (k' == kv.1) = false := by
        simp only [beq_eq_false_iff_ne, ne_eq, h]
        exact hne
      have hb3 : (k' == k) = false := by
        simp only [beq_eq_false_iff_ne, ne_eq]
        exact hne
      simp only [List.map_cons, hb, assocGet, hb2, hb3]
      exact ih
    · have hb : (kv.1 == k) = false := by simp [h]
      simp only [List.map_cons, hb, assocGet]
      by_cases h2 : k' = kv.1
      · have hb2 : (k' == kv.1) = true := by simp [h2]
        simp only [hb2]
      · have hb2 : (k' == kv.1) = false := by simp [h2]
        simp only [hb2]
        exact ih

theorem assocGet_none_of_notany (k : String) :
    ∀ m : StrMap, m.any (fun kv => kv.1 == k) = false → assocGet m k = none := by
  intro m
  induction m with
  | nil => intro _; rfl
  | cons kv rest ih =>
    intro hany
    simp only [List.any_cons, Bool.or_eq_false_iff] at hany
    have hb : (k == kv.1) = false := by
      simp only [beq_eq_false_iff_ne, ne_eq]
      intro h
      rw [← h] at hany
      simpa using hany.1
    simp only [assocGet, hb]
    exact ih hany.2

theorem assocGet_append (m1 m2 : StrMap) (k : String) :
    assocGet (m1 ++ m2) k =
      match assocGet m1 k with
      | some v => some v
      | none => assocGet m2 k := by
  induction m1 with
  | nil => simp [assocGet]
  | cons kv rest ih =>
    cases hb : (k == kv.1) with
    | true => simp only [List.cons_append, assocGet, hb]
    | false =>
      simp only [List.cons_append, assocGet, hb]
      exact ih

theorem assocGet_assocSet_self (m : StrMap) (k v : String) :
    assocGet (assocSet m k v) k = some v := by
  unfold assocSet
  cases hany : m.any (fun kv => kv.1 == k) with
  | true => exact assocGet_map_overwrite_self k v m hany
  | false =>
    rw [assocGet_append, assocGet_none_of_notany k m hany]
    simp [assocGet]

theorem assocGet_assocSet_ne (m : StrMap) (k v k' : String) (hne : k' ≠ k) :
    assocGet (assocSet m k v) k' = assocGet m k' := by
  unfold assocSet
  cases hany : m.any (fun kv => kv.1 == k) with
  | true => exact assocGet_map_overwrite_ne k v k' hne m
  | false =>
    rw [assocGet_append]
    cases hl : assocGet m k' with
    | some w => simp
    | none =>
      have hb : (k' == k) = false := by simp [hne]
      simp [assocGet, hb]

theorem assocGet_mergeAssoc (k : String) :
    ∀ (b a : StrMap), assocGet (mergeAssoc a b) k = assocGet a k ∨
      ∃ kv ∈ b, kv.1 = k ∧ assocGet (mergeAssoc a b) k = some kv.2 := by
  intro b
  induction b with
  | nil => intro a; left; rfl
  | cons x rest ih =>
    intro a
    have hstep : mergeAssoc a (x :: rest) = mergeAssoc (assocSet a x.1 x.2) rest := rfl
    rcases ih (assocSet a x.1 x.2) with h | h
    · by_cases hk : x.1 = k
      · right
        refine ⟨x, by simp, hk, ?_⟩
        rw [hstep, h, ← hk, assocGet_assocSet_self]
      · left
        rw [hstep, h, assocGet_assocSet_ne]
        intro hkk
        exact hk hkk.symm
    · right
      obtain ⟨kv, hmem, hkk, heq⟩ := h
      exact ⟨kv, by simp [hmem], hkk, by rw [hstep]; exact heq⟩

/-- C10: `Props.CanBeAttr` keeps only the entries whose key is in the
HTML allowlist (`id`, `src`) and additionally has the prefix `data-`;
since no allowlisted key has that prefix, `CanBeAttr` returns the empty
props map for every input. -/
theorem canBeAttr_empty (p : StrMap) :
    canBeAttr p =
      p.filter (fun kv => (kv.1 == "id" || kv.1 == "src") && goStartsWith kv.1 "data-") ∧
    canBeAttr p = [] := by
  refine ⟨rfl, ?_⟩
  induction p with
  | nil => rfl
  | cons kv rest ih =>
    unfold canBeAttr at ih ⊢
    rw [List.filter_cons]
    have hfalse : ((kv.1 == "id" || kv.1 == "src") && goStartsWith kv.1 "data-") = false := by
      by_cases h1 : kv.1 = "id"
      · rw [h1]; decide
      · by_cases h2 : kv.1 = "src"
        · rw [h2]; decide
        · have b1 : (kv.1 == "id") = false := by simp [h1]
          have b2 : (kv.1 == "src") = false := by simp [h2]
          rw [b1, b2]
          rfl
    rw [hfalse]
    simpa using ih

/-- C1: Go's `range` over the maps in `mapStringToGoCode`,
`mapJsCodeToCode` and `OptionsGen.ToGoCode` iterates in an unspecified
order, so compiling the same template twice is not guaranteed to yield
byte-identical output: two iteration orders of the same two-entry map
(the two lists are permutations of one another, i.e. the same Go map)
already produce different code strings. -/
theorem genOutput_depends_on_map_order :
    List.Perm [("a", "1"), ("b", "2")] [("b", "2"), ("a", "1")] ∧
    mapStringToGoCode [("a", "1"), ("b", "2")] ≠
      mapStringToGoCode [("b", "2"), ("a", "1")] ∧
    mapJsCodeToCode [("a", "x"), ("b", "y")] ≠
      mapJsCodeToCode [("b", "y"), ("a", "x")] ∧
    toGoCode (OptionsGen.mk [] [("a", "1"), ("b", "2")] [] [] [] "\"\"" [] []) ≠
      toGoCode (OptionsGen.mk [] [("b", "2"), ("a", "1")] [] [] [] "\"\"" [] []) := by
  exact ⟨by decide, by decide, by decide, by decide⟩

/-- C2: `OptionsGen.ToGoCode` deletes the `class` / `style` entries from
the props map it was handed — not from a copy.  The second component of
`toGoCodeSt` is the post-state of that map: for a props map that carries
a `class` key it differs from the map passed in.  (In Go the same map
object is `e.Props` of the Vue tree node, since `GenCode` builds the
`OptionsGen` with `Props: e.Props` and maps are reference values, so the
tree is mutated.) -/
theorem toGoCode_mutates_props :
    (toGoCodeSt (OptionsGen.mk [("class", "c"), ("a", "b")] [] [] [] [] "\"\"" [] [])).2
      = [("a", "b")] ∧
    (toGoCodeSt (OptionsGen.mk [("class", "c"), ("a", "b")] [] [] [] [] "\"\"" [] [])).2
      ≠ [("class", "c"), ("a", "b")] ∧
    assocGet (toGoCodeSt (OptionsGen.mk [("class", "c"), ("a", "b")] [] [] [] [] "\"\"" [] [])).2
      "class" = none := by
  exact ⟨by decide, by decide, by decide⟩

/-- C7: parsing a `v-for` value splits it on `" in "`; the trimmed
right side becomes `ArrayKey`; if the trimmed left side contains a
comma, outer parentheses are stripped and it is split on the comma into
`ItemKey` and `IndexKey`; otherwise the left side is `ItemKey` and
`IndexKey` is `"$index"`. -/
theorem parseVFor_spec (val lft rgt : String) (rest : List String)
    (h : goSplit val " in " = lft :: rgt :: rest) :
    parseVFor val =
      (let arrayKey := goTrimSpace rgt
       let left := goTrimSpace lft
       if goContains left ',' then
         some (VForD.mk arrayKey
           (goTrimSpace ((goSplit (goTrim left ['(', ')']) ",").headD ""))
           (goTrimSpace (((goSplit (goTrim left ['(', ')']) ",").get? 1).getD "")))
       else
         some (VForD.mk arrayKey left "$index")) := by
  unfold parseVFor
  rw [h]
  rfl

/-- Witness for C7 at the spec's own scenario `(it, i) in xs` and at the
tuple-free form `item in list`. -/
theorem parseVFor_spec_witness :
    parseVFor "(it, i) in xs" = some (VForD.mk "xs" "it" "i") ∧
    parseVFor "item in list" = some (VForD.mk "list" "item" "$index") := by
  constructor
  · have h := parseVFor_spec "(it, i) in xs" "(it, i)" "xs" [] (by decide)
    rw [h]
    decide
  · have h := parseVFor_spec "item in list" "item" "list" [] (by decide)
    rw [h]
    decide

/-- C5: every options literal emitted by `OptionsGen.ToGoCode` contains
the `Slot` map section; the assembled slot map always holds a
`"default"` entry, whose value is the default-slot closure (or a
named-slot closure that a child's `v-slot:default` wrote over it); and
when no children contributed default-slot code (`DefaultSlotCode` is
empty, or already the literal `""` that `GenCode` substitutes) and there
are no named slots, the `"default"` closure body is the empty string
literal. -/
theorem toGoCode_slot_default (o : OptionsGen) :
    (∃ pre suf, toGoCode o =
      pre ++ ("Slot: " ++ mapGoCodeToCode (slotAssemble o) "namedSlotFunc" ++ ",\n") ++ suf) ∧
    (∃ body, assocGet (slotAssemble o) "default" = some body ∧
      (body = "func (props map[string]interface\x7b\x7d)string\x7breturn " ++
          (if o.DefaultSlotCode = "" then "\"\"" else o.DefaultSlotCode) ++ "\x7d" ∨
        ∃ kv ∈ o.NamedSlotCode, kv.1 = "default" ∧ body = kv.2)) ∧
    (o.NamedSlotCode = [] →
      assocGet (slotAssemble o) "default" =
        some ("func (props map[string]interface\x7b\x7d)string\x7breturn " ++
          (if o.DefaultSlotCode = "" then "\"\"" else o.DefaultSlotCode) ++ "\x7d")) ∧
    (o.NamedSlotCode = [] → o.DefaultSlotCode = "\"\"" →
      assocGet (slotAssemble o) "default" =
        some "func (props map[string]interface\x7b\x7d)string\x7breturn \"\"\x7d") := by
  refine ⟨⟨optHeadCode o, optTailCode o, ?_⟩, ?_, ?_, ?_⟩
  · unfold toGoCode toGoCodeSt
    simp [String.append_assoc]
  · rcases assocGet_mergeAssoc "default" o.NamedSlotCode
      [("default",
        "func (props map[string]interface\x7b\x7d)string\x7breturn " ++
          (if o.DefaultSlotCode = "" then "\"\"" else o.DefaultSlotCode) ++ "\x7d")] with h | h
    · refine ⟨_, ?_, Or.inl rfl⟩
      rw [slotAssemble, h]
      rfl
    · obtain ⟨kv, hmem, hk, heq⟩ := h
      exact ⟨kv.2, heq, Or.inr ⟨kv, hmem, hk, rfl⟩⟩
  · intro hn
    rw [slotAssemble, hn]
    rfl
  · intro hn hd
    rw [slotAssemble, hn, hd]
    rfl

/-- Witness for C5: for the options of a childless element
(`DefaultSlotCode` already the literal `""`, no named slots) the
`default` slot closure has body `""`. -/
theorem toGoCode_slot_default_witness :
    assocGet (slotAssemble (OptionsGen.mk [] [] [] [] [] "\"\"" [] [])) "default" =
      some "func (props map[string]interface\x7b\x7d)string\x7breturn \"\"\x7d" :=
  (toGoCode_slot_default (OptionsGen.mk [] [] [] [] [] "\"\"" [] [])).2.2.2 rfl rfl

/-- C6: else-chain tracking of `parseList`.  One sibling step: a node
with `v-if` becomes the cursor; a node with none of
`v-if`/`v-else-if`/`v-else` clears the cursor; a `v-else-if`/`v-else`
with no active cursor is a fatal error; `v-else-if` is appended to the
cursor node's chain (cursor kept); `v-else` is appended and closes the
chain (cursor cleared). -/
theorem parseStep_else_chain (st : List VueElement × Option Nat) (v : VueElement)
    (eIf eElse : Option String) :
    (v.VIf.isSome = true → eIf = none → eElse = none →
      parseStep st v eIf eElse = .ok (st.1 ++ [v], some st.1.length)) ∧
    (v.VIf.isSome = false → eIf = none → eElse = none →
      parseStep st v eIf eElse = .ok (st.1 ++ [v], none)) ∧
    (∀ c, eIf = some c → v.VIf.isSome = false → st.2 = none →
      parseStep st v eIf eElse = .error "v-else-if must below v-if") ∧
    (∀ c, eElse = some c → eIf = none → v.VIf.isSome = false → st.2 = none →
      parseStep st v eIf eElse = .error "v-else must below v-if") ∧
    (∀ c j, eElse = some c → eIf = none → v.VIf.isSome = false → st.2 = some j →
      parseStep st v eIf eElse =
        .ok (listModify (st.1 ++ [v]) j (fun w => addElseIf w ("else", c, v)), none)) ∧
    (∀ c j, eIf = some c → eElse = none → v.VIf.isSome = false → st.2 = some j →
      parseStep st v eIf eElse =
        .ok (listModify (st.1 ++ [v]) j (fun w => addElseIf w ("elseif", c, v)), some j)) := by
  obtain ⟨f1, f2, f3, f4, f5, f6, f7, f8, f9, f10, f11, vIf, f13, f14, f15, f16, f17, f18⟩ := v
  refine ⟨?_, ?_, ?_, ?_, ?_, ?_⟩
  · intro h1 h2 h3
    simp only [VueElement.VIf] at h1
    simp [parseStep, h1, h2, h3]
  · intro h1 h2 h3
    simp only [VueElement.VIf] at h1
    simp [parseStep, h1, h2, h3]
  · intro c h1 h2 h3
    simp only [VueElement.VIf] at h2
    simp [parseStep, h1, h2, h3]
  · intro c h1 h2 h3 h4
    simp only [VueElement.VIf] at h3
    simp [parseStep, h1, h2, h3, h4]
  · intro c j h1 h2 h3 h4
    simp only [VueElement.VIf] at h3
    simp [parseStep, h1, h2, h3, h4]
  · intro c j h1 h2 h3 h4
    simp only [VueElement.VIf] at h3
    simp [parseStep, h1, h2, h3, h4]

/-- Witness for C6: a dangling `v-else-if` (no preceding `v-if`) is the
fatal error, at a concrete sibling state. -/
theorem parseStep_else_chain_witness :
    parseStep ([], none) plainPNode (some "c") none = .error "v-else-if must below v-if" :=
  (parseStep_else_chain ([], none) plainPNode (some "c") none).2.2.1 "c" rfl rfl rfl

/-- Unfolding of `genCode` through the named helpers: dispatch on the
tag, then wrap with `v-for`, then `v-slot`, then `v-if`. -/
theorem genCode_eq (app : App) (e : VueElement) :
    genCode app e =
      (let eleCode1 := vForApply e.VFor (genBaseOf app e)
       let p2 :=
         match e.VSlot with
         | some s =>
           ((genVSlot s eleCode1).1,
            mergeAssoc (childNamedOf app e) (genVSlot s eleCode1).2)
         | none => (eleCode1, childNamedOf app e)
       match e.VIf with
       | some ci =>
         let chainRes := genChain app ci.2
         let chainNamed := chainRes.foldl (fun acc x => mergeAssoc acc x.2.2.2) []
         (genVIfAssemble (js2Go ci.1 DataKey)
            (chainRes.map (fun x => (x.1, x.2.1, x.2.2.1))) p2.1,
          mergeAssoc p2.2 chainNamed)
       | none => p2) := by
  obtain ⟨f1, f2, f3, f4, f5, f6, f7, f8, f9, f10, children, vIf, vFor, vSlot, f15, f16, f17, f18⟩ := e
  cases vIf <;> cases vSlot <;> cases vFor <;> (simp only [genCode]; rfl)

/-- C3: for an element with both `v_if` and `v_for`, `GenCode` applies
the decorators in the order `v-for` first, then `v-slot`, then `v-if`,
so (absent a `v-slot`, which would hoist the body into the named-slot
map) the `v-for` iteration code sits inside the `v-if` branch of the
emitted conditional ladder. -/
theorem genCode_vfor_inside_vif (app : App) (e : VueElement)
    (cond : String) (chain : List (String × String × VueElement)) (f : VForD)
    (hIf : e.VIf = some (cond, chain)) (hFor : e.VFor = some f) :
    (genCode app e).1 =
      genVIfAssemble (js2Go cond DataKey)
        ((genChain app chain).map (fun x => (x.1, x.2.1, x.2.2.1)))
        (vSlotApply e.VSlot (genVFor f (genBaseOf app e))) ∧
    (e.VSlot = none →
      (genCode app e).1 =
        "func ()string\x7b\nif interfaceToBool(" ++ js2Go cond DataKey ++
          ") \x7breturn " ++ genVFor f (genBaseOf app e) ++
          (((genChain app chain).map (fun x => (x.1, x.2.1, x.2.2.1))).map
            elseEntryCode).foldl (fun a b => a ++ b) "" ++
          "\n\x7d\nreturn \"\"\n\x7d()") := by
  constructor
  · rw [genCode_eq, hIf, hFor]
    cases hvs : e.VSlot <;> rfl
  · intro hvs
    rw [genCode_eq, hIf, hFor, hvs]
    rfl

/-- Witness for C3 at a concrete element with `v-if="a"` and
`v-for="item in xs"`. -/
theorem genCode_vfor_inside_vif_witness :
    (genCode NewApp forIfNode).1 =
      genVIfAssemble (js2Go "a" DataKey)
        ((genChain NewApp ([] : List (String × String × VueElement))).map
          (fun x => (x.1, x.2.1, x.2.2.1)))
        (vSlotApply forIfNode.VSlot
          (genVFor (VForD.mk "xs" "item" "$index") (genBaseOf NewApp forIfNode))) :=
  (genCode_vfor_inside_vif NewApp forIfNode "a" [] (VForD.mk "xs" "item" "$index")
    rfl rfl).1

/-- Counterexample for C4 as stated: on a node carrying both `v_slot`
and `v_if`, `GenCode` returns the `v-if` ladder (whose then-branch
returns `""`), not the literal empty-string expression, because `genVIf`
wraps after `genVSlot`. -/
theorem genCode_vslot_with_vif_not_empty :
    (genCode NewApp slotIfNode).1 ≠ "\"\"" ∧
    slotIfNode.VSlot = some (VSlotD.mk "s" "p") ∧
    slotIfNode.VIf = some ("c", []) := by
  refine ⟨?_, rfl, rfl⟩
  rw [genCode_eq]
  simp only [slotIfNode, VueElement.VIf, VueElement.VFor, VueElement.VSlot,
    VueElement.Children, genBaseOf, childSlotOf, childNamedOf, genList, genChain]
  decide

/-- C4 (amended): for every node carrying a `v_slot` descriptor and no
`v_if`, `GenCode` returns the literal empty-string expression `""` as
the node's contribution to its parent's default slot code, and writes
exactly one entry into the named-slot map under `SlotName`: a
one-argument closure over `props` that rebinds the scope identifier to
`extendMap(\x7bPropsKey: props\x7d, scope)` and returns the node's
(`v-for`-wrapped) body. -/
theorem genCode_vslot_empty_contribution (app : App) (e : VueElement) (s : VSlotD)
    (hS : e.VSlot = some s) (hIf : e.VIf = none) :
    (genCode app e).1 = "\"\"" ∧
    (genCode app e).2 =
      mergeAssoc (childNamedOf app e)
        [(s.SlotName,
          "func(props map[string]interface\x7b\x7d) string\x7b\n\t" ++ DataKey ++
            " := extendMap(map[string]interface\x7b\x7d\x7b\"" ++ s.PropsKey ++
            "\": props\x7d, " ++ DataKey ++ ")\n_ = " ++ DataKey ++
            "\nreturn " ++ vForApply e.VFor (genBaseOf app e) ++ "\n\x7d")] := by
  constructor
  · rw [genCode_eq, hIf, hS]
    rfl
  · rw [genCode_eq, hIf, hS]
    rfl

/-- Witness for C4 (amended) at a concrete `v-slot:header="sp"` template
node. -/
theorem genCode_vslot_empty_contribution_witness :
    (genCode NewApp slotOnlyNode).1 = "\"\"" :=
  (genCode_vslot_empty_contribution NewApp slotOnlyNode (VSlotD.mk "header" "sp")
    rfl rfl).1

/-- C8: for a pure text node (`__string`, not registered as a component
and without directives to wrap), code generation escapes newlines to the
literal escape, injects every interpolation via
`"+interfaceToStr(<Js2Go expr>)+"` against the scope identifier `this`,
and wraps the text in string quotes; concretely, the text
`Hello \x7b\x7b name \x7d\x7d` becomes
`Hello "+interfaceToStr(this["name"])+"`, and the generated code of
`<span>Hello \x7b\x7b name \x7d\x7d</span>` contains
`interfaceToStr(this["name"])`. -/
theorem genCode_string_interpolation (app : App) (e : VueElement)
    (h1 : e.TagName = "__string") (h2 : app.contains "__string" = false)
    (h3 : e.VFor = none) (h4 : e.VSlot = none) (h5 : e.VIf = none) :
    (genCode app e).1 = "\"" ++ injectVal (escapeNl e.Text) ++ "\"" ∧
    injectVal "Hello {{ name }}" = "Hello \"+interfaceToStr(this[\"name\"])+\"" ∧
    (∃ p q, (genCode NewApp spanNode).1 =
      p ++ "interfaceToStr(this[\"name\"])" ++ q) := by
  refine ⟨?_, by decide, ?_⟩
  · rw [genCode_eq, h5, h4, h3]
    show genBaseOf app e = _
    unfold genBaseOf genBase
    rw [h1]
    have h2' : ¬("__string" ∈ app) := by simpa using h2
    simp [h2']
  · refine ⟨"\"<span\"+\"\"+\">\"+\"Hello \"+", "+\"\"+\"</span>\"", ?_⟩
    simp only [genCode_eq, spanNode, textNode, genBaseOf, childSlotOf, childNamedOf,
      genList, genChain, VueElement.VIf, VueElement.VFor, VueElement.VSlot,
      VueElement.VElse, VueElement.VElseIf, VueElement.Children]
    decide

/-- Witness for C8 at the concrete text node. -/
theorem genCode_string_interpolation_witness :
    (genCode NewApp textNode).1 = "\"" ++ injectVal (escapeNl textNode.Text) ++ "\"" :=
  (genCode_string_interpolation NewApp textNode rfl rfl rfl rfl rfl).1

theorem dropWhile_head_false (p : Char → Bool) :
    ∀ (l : List Char) (d : Char) (rest : List Char),
      l.dropWhile p = d :: rest → p d = false := by
  intro l
  induction l with
  | nil => intro d rest h; simp [List.dropWhile] at h
  | cons a l0 ih =>
    intro d rest h
    by_cases ha : p a
    · rw [List.dropWhile_cons, if_pos ha] at h
      exact ih d rest h
    · rw [List.dropWhile_cons, if_neg ha] at h
      obtain ⟨h1, -⟩ := List.cons.inj h
      rw [← h1]
      simpa using ha

theorem wsNormed_tail (c : Char) (l : List Char) (h : wsNormed (c :: l) = true) :
    wsNormed l = true := by
  cases l with
  | nil => rfl
  | cons c2 l2 =>
    rw [wsNormed, Bool.and_eq_true] at h
    exact h.2

theorem wsNormed_head_space (c : Char) (l : List Char) (h : wsNormed (c :: l) = true)
    (hc : isGoSpace c = true) :
    c = ' ' ∧ (l = [] ∨ ∃ c2 l2, l = c2 :: l2 ∧ isGoSpace c2 = false) := by
  cases l with
  | nil =>
    rw [wsNormed, hc] at h
    simp at h
    exact ⟨h, Or.inl rfl⟩
  | cons c2 l2 =>
    rw [wsNormed, Bool.and_eq_true] at h
    have h1 := h.1
    rw [hc] at h1
    simp at h1
    exact ⟨h1.1, Or.inr ⟨c2, l2, rfl, by simpa using h1.2⟩⟩

theorem collapseWs_normed : ∀ (n : Nat) (l : List Char), l.length ≤ n →
    wsNormed (collapseWs l) = true := by
  intro n
  induction n with
  | zero =>
    intro l h
    have : l = [] := List.length_eq_zero.mp (Nat.le_zero.mp h)
    subst this
    simp [collapseWs, wsNormed]
  | succ n ih =>
    intro l h
    cases l with
    | nil => simp [collapseWs, wsNormed]
    | cons c l0 =>
      have hlen : l0.length ≤ n := by simpa using h
      rw [collapseWs]
      by_cases hc : isGoSpace c
      · rw [if_pos hc]
        cases hdw : l0.dropWhile isGoSpace with
        | nil => simp [collapseWs, wsNormed]
        | cons d0 rest0 =>
          have hd0 : isGoSpace d0 = false := dropWhile_head_false isGoSpace l0 d0 rest0 hdw
          have hX : collapseWs (d0 :: rest0) = d0 :: collapseWs rest0 := by
            rw [collapseWs, if_neg (by simp [hd0])]
          have hrec : wsNormed (collapseWs (d0 :: rest0)) = true := by
            apply ih
            have := length_dropWhile_le' isGoSpace l0
            rw [hdw] at this
            omega
          rw [hX] at hrec ⊢
          rw [wsNormed, Bool.and_eq_true]
          refine ⟨?_, hrec⟩
          simp [hd0]
      · rw [if_neg hc]
        have hrec : wsNormed (collapseWs l0) = true := ih l0 hlen
        cases hX : collapseWs l0 with
        | nil => simp [wsNormed, hc]
        | cons d0 rest0 =>
          rw [hX] at hrec
          rw [wsNormed, Bool.and_eq_true]
          refine ⟨?_, hrec⟩
          simp [hc]

theorem collapseWs_fixed : ∀ l : List Char, wsNormed l = true → collapseWs l = l := by
  intro l
  induction l with
  | nil => intro _; simp [collapseWs]
  | cons c l0 ih =>
    intro h
    have htail := wsNormed_tail c l0 h
    by_cases hc : isGoSpace c
    · obtain ⟨hceq, hshape⟩ := wsNormed_head_space c l0 h hc
      rcases hshape with rfl | ⟨c2, l2, rfl, hc2⟩
      · rw [collapseWs, if_pos hc]
        rw [hceq]
        simp [collapseWs]
      · have hdrop : (c2 :: l2).dropWhile isGoSpace = c2 :: l2 := by
          rw [List.dropWhile_cons, if_neg (by simp [hc2])]
        rw [collapseWs, if_pos hc, hdrop, ih htail, hceq]
    · rw [collapseWs, if_neg hc, ih htail]

theorem map_nl_of_normed :
    ∀ l : List Char, wsNormed l = true →
      l.map (fun c => if c = '\n' then ' ' else c) = l := by
  intro l
  induction l with
  | nil => intro _; rfl
  | cons c l0 ih =>
    intro h
    have htail := wsNormed_tail c l0 h
    rw [List.map_cons, ih htail]
    by_cases hc : isGoSpace c
    · obtain ⟨hceq, -⟩ := wsNormed_head_space c l0 h hc
      rw [hceq]
      rfl
    · have : c ≠ '\n' := by
        intro hcn
        rw [hcn] at hc
        exact hc rfl
      rw [if_neg this]

/-- C9: the text-node whitespace normalizer (replace every newline with
a space, then collapse every whitespace run to a single space) is
idempotent, and the drop decision (drop iff the result is empty or a
single space) is stable under a second application. -/
theorem normalizeText_idempotent (s : String) :
    normalizeText (normalizeText s) = normalizeText s ∧
    omitText (normalizeText (normalizeText s)) = omitText (normalizeText s) := by
  have key : normalizeText (normalizeText s) = normalizeText s := by
    show String.mk (collapseWs (((collapseWs
      (s.data.map (fun c => if c = '\n' then ' ' else c)))).map
        (fun c => if c = '\n' then ' ' else c))) = _
    have hn : wsNormed (collapseWs
        (s.data.map (fun c => if c = '\n' then ' ' else c))) = true :=
      collapseWs_normed _ _ le_rfl
    rw [map_nl_of_normed _ hn, collapseWs_fixed _ hn]
    rfl
  exact ⟨key, by rw [key]⟩

end Vuessr
